import Mathlib

/-!
Verification development for the Reddit post summary engine.

This file gives a shallow embedding of the comment triage pipeline
(`reddit_analyzer.py`), the batch enrichment client (`gemini_analyzer.py`),
the sampling-strategy selector (`reddit_scraper.py`) and the SQLite cache
(`cache_manager.py`), and proves the testable properties of the spec.

Modelling conventions:
- Python floats are modelled as rationals; the arithmetic of the scoring
  formulas is mirrored exactly.
- Python dictionaries with a fixed key set are modelled as structures;
  a key that may be absent (or bound to None) is an `Option` field.
- Calls to the external generative model are modelled by an oracle
  function mapping each batch to the outcome of response generation plus
  JSON parsing: `none` stands for an exhausted-retries exception, an
  unparseable response, a non-list result or an empty list (all of which
  the code treats alike), `some l` for a successfully parsed JSON array.
- The SQLite tables are association lists keyed by URL; `INSERT OR
  REPLACE` prepends the fresh row and erases the old one.  A storage-layer
  error (`sqlite3.Error`) is injected through an explicit `err : Bool`
  argument on every operation that wraps its body in `try/except`; the
  `with` context manager rolls back, so the erroring operation leaves the
  table unchanged.
- `datetime.now()` is passed in explicitly as a rational number of hours.
-/

/-- Comment record as produced by the scraper and consumed by the triage
pipeline (the `replies` field has already been dropped by flattening;
fields not read by the pipeline are omitted). -/
structure PyComment where
  id : String
  body : String
  score : Int
  depth : Nat
deriving DecidableEq

/-- Count of whitespace characters recognised by Python `str.split()`
(ASCII subset; the unicode whitespace classes are not modelled). -/
def isPySpace (c : Char) : Bool :=
  c = ' ' || c = '\t' || c = '\n' || c = '\r' || c = '\x0b' || c = '\x0c'

/-- Word counter mirroring `len(body.split())`: number of maximal runs of
non-whitespace characters.  The boolean argument records whether the scan
is currently inside such a run. -/
def countWordsGo : List Char → Bool → Nat
  | [], _ => 0
  | c :: rest, inWord =>
    if isPySpace c then countWordsGo rest false
    else (if inWord then 0 else 1) + countWordsGo rest true

/-- Number of words of a string, as `len(s.split())` computes it. -/
def wordCount (s : String) : Nat :=
  countWordsGo s.data false

/-- Heuristic score from `RedditAnalyzer._pre_filter_comments.heuristic_score`:
`length_bonus = 1.0 if words >= 20 else words / 20.0`,
`depth_penalty = 1.0 - min(depth * 0.05, 0.5)`,
result `(length_bonus * 0.5 + depth_penalty * 0.3) + score / 1000`. -/
def heuristic_score (c : PyComment) : ℚ :=
  let words : ℚ := (wordCount c.body : ℚ)
  let length_bonus : ℚ := if (20 : ℚ) ≤ words then 1 else words / 20
  let depth_penalty : ℚ := 1 - min ((c.depth : ℚ) * 0.05) 0.5
  (length_bonus * 0.5 + depth_penalty * 0.3) + (c.score : ℚ) / 1000

/-- Comparator handed to the stable sort: `a` may stay before `b` exactly
when its heuristic score is at least that of `b`.  Python `sorted` with
a key and `reverse=True`
in Python is a stable descending sort, which is what `List.mergeSort` with
this comparator computes. -/
def hsGE (a b : PyComment) : Bool :=
  decide (heuristic_score b ≤ heuristic_score a)

/-- Stable descending ranking of the comments by heuristic score,
modelling `sorted(comments, key=heuristic_score, reverse=True)`. -/
def rankedComments (comments : List PyComment) : List PyComment :=
  comments.mergeSort hsGE

/-- Shallow embedding of `RedditAnalyzer._pre_filter_comments`: empty input
short-circuits to `[]`; otherwise rank and keep the first `max_count`. -/
def _pre_filter_comments (comments : List PyComment) (max_count : Nat) :
    List PyComment :=
  if comments.isEmpty then []
  else (rankedComments comments).take max_count

/-- Heuristic score as the specification words it:
`0.5 * length_bonus + 0.3 * depth_penalty + raw_score / 1000` with
`length_bonus = min(word_count / 20, 1.0)` and
`depth_penalty = 1.0 - min(depth * 0.05, 0.5)`. -/
def specHeuristicScore (c : PyComment) : ℚ :=
  0.5 * min ((wordCount c.body : ℚ) / 20) 1
    + 0.3 * (1 - min ((c.depth : ℚ) * 0.05) 0.5)
    + (c.score : ℚ) / 1000

/-- Result record of `RedditScraper.determine_sampling_strategy`. -/
structure SamplingStrategy where
  strategy : String
  max_comments : Option Nat
  more_limit : Nat
deriving DecidableEq

/-- Shallow embedding of `RedditScraper.determine_sampling_strategy`. -/
def determine_sampling_strategy (comment_count : Int) : SamplingStrategy :=
  if comment_count < 50 then
    { strategy := "all", max_comments := none, more_limit := 0 }
  else if comment_count < 500 then
    { strategy := "top_plus_sampling", max_comments := some 100, more_limit := 0 }
  else
    { strategy := "top_clustering", max_comments := some 200, more_limit := 0 }

/-- Sampling-strategy selector as the specification words it, with the
three volume bands spelled out as explicit two-sided conditions. -/
def specSamplingStrategy (comment_count : Int) : SamplingStrategy :=
  if comment_count < 50 then
    { strategy := "all", max_comments := none, more_limit := 0 }
  else if 50 ≤ comment_count ∧ comment_count < 500 then
    { strategy := "top_plus_sampling", max_comments := some 100, more_limit := 0 }
  else
    { strategy := "top_clustering", max_comments := some 200, more_limit := 0 }

/-- Per-comment analysis record produced by parsing the JSON array of the model
(the normalised field set of `_get_default_comment_analysis`; the nested
`sentiment` dictionary is flattened into its three entries).  Each field is
an `Option` because a model-produced dictionary may omit it or bind it to
null. -/
structure CommentAnalysis where
  comment_id : Option String
  quality_score : Option ℚ
  intent_primary : Option String
  intent_secondary : Option String
  toward_op : Option String
  toward_subject : Option String
  overall_tone : Option String
  key_insights : Option (List String)
  actionable_advice : Option (List String)
  shared_experiences : Option (List String)
  relevance_score : Option ℚ
deriving DecidableEq

/-- Shallow embedding of `GeminiAnalyzer._get_default_comment_analysis`. -/
def _get_default_comment_analysis (comment_id : String) : CommentAnalysis :=
  { comment_id := some comment_id
    quality_score := some 5
    intent_primary := some ("UNKNOWN")
    intent_secondary := none
    toward_op := some ("neutral")
    toward_subject := some ("neutral")
    overall_tone := some ("neutral")
    key_insights := some []
    actionable_advice := some []
    shared_experiences := some []
    relevance_score := some 5 }

/-- Enriched comment: the dictionary union of a comment dictionary and an
analysis dictionary.  The two key sets are disjoint, so the union is a
pairing. -/
structure EnrichedComment where
  base : PyComment
  analysis : CommentAnalysis
deriving DecidableEq

/-- Dictionary merge from the enrichment loop: the spread of the batch
comment and the (disjointly keyed) analysis record. -/
def mergeAnalysis (c : PyComment) (a : CommentAnalysis) : EnrichedComment :=
  { base := c, analysis := a }

/-- Outcome of one batch call, covering response generation
(`_generate_with_retry`) followed by `_parse_json_response` and the
`analyses and isinstance(analyses, list)` guard: `none` means an exception
after retries, an unparseable response, a non-list result or an empty
list; `some l` means the guard passed with the parsed array `l`. -/
abbrev BatchOracle := List PyComment → Option (List CommentAnalysis)

/-- Per-batch body of `GeminiAnalyzer.analyze_comments_batch`: on a parsed
non-empty array, each array element is merged positionally onto the batch
comment at its index (`if j < len(batch)` discards excess array elements,
and batch comments beyond the array are simply never appended); otherwise
every comment of the batch is merged with the default analysis. -/
def processBatch (respond : BatchOracle) (batch : List PyComment) :
    List EnrichedComment :=
  match respond batch with
  | some (a :: rest) =>
      (batch.zip (a :: rest)).map fun p => mergeAnalysis p.1 p.2
  | _ =>
      batch.map fun c => mergeAnalysis c (_get_default_comment_analysis c.id)

/-- Fuel-indexed contiguous chunking.  The fuel starts at the list length
and the scan consumes at least one element per chunk, so it never runs
out. -/
def chunkGo (bs : Nat) : Nat → List α → List (List α)
  | _, [] => []
  | 0, _ :: _ => []
  | n + 1, x :: xs => (x :: xs.take (bs - 1)) :: chunkGo bs n (xs.drop (bs - 1))

/-- Contiguous chunks of size `bs`, modelling the slicing loop
`for i in range(0, len(l), bs): l[i:i+bs]`.  Python raises `ValueError`
for step 0; `bs = 0` is out of scope for every claim (all assume
`bs ≥ 1`) and is mapped to singleton chunks here. -/
def chunkList (bs : Nat) (l : List α) : List (List α) :=
  chunkGo bs l.length l

/-- Shallow embedding of `GeminiAnalyzer.analyze_comments_batch`: slice the
comment list into contiguous chunks of `batch_size` and concatenate the
per-chunk results in order (the sequential path; the `time.sleep(1)`
rate-limit pause has no observable effect on the result). -/
def analyze_comments_batch (respond : BatchOracle)
    (comments_list : List PyComment) (batch_size : Nat) :
    List EnrichedComment :=
  (chunkList batch_size comments_list).flatMap (processBatch respond)

/-- Shallow embedding of `RedditAnalyzer._analyze_comments_parallel`: the
batches are submitted to a bounded pool and collected with
`as_completed`, so the merged output is the concatenation of the per-batch
results in some completion order.  The completion order is passed in
explicitly as the list `completed` of batches; theorems quantify over
every permutation of the chunk list.  Each worker runs
`analyze_comments_batch` on its (size ≤ batch_size) batch. -/
def _analyze_comments_parallel (respond : BatchOracle)
    (batch_size : Nat) (completed : List (List PyComment)) :
    List EnrichedComment :=
  completed.flatMap fun b => analyze_comments_batch respond b batch_size

/-- Shallow embedding of `RedditAnalyzer._filter_quality_comments`:
a list comprehension keeping comments whose quality_score read with
default 0 is at least the threshold. -/
def _filter_quality_comments (comments : List EnrichedComment)
    (threshold : ℚ) : List EnrichedComment :=
  comments.filter fun c => decide (threshold ≤ c.analysis.quality_score.getD 0)

/-- Quality filter as the specification words it:
`[c for c in comments if c.quality_score >= t]`, reading the field of a
record that carries it. -/
def specQualityFilter (comments : List EnrichedComment) (threshold : ℚ) :
    List EnrichedComment :=
  comments.filter fun c =>
    match c.analysis.quality_score with
    | some q => decide (threshold ≤ q)
    | none => false

/-- Row of the `posts` table (`url` is the key; payload columns hold the
serialized post data, the optional extracted text and the optional
serialized enriched result; JSON serialization round-trips, so the
payloads are carried directly).  The timestamp is in hours. -/
structure PostRow where
  raw_data : String
  extracted_text : Option String
  enriched_data : Option String
  timestamp : ℚ
deriving DecidableEq

/-- Row of the `comments` table (`comment_id` is the key). -/
structure CommentRow where
  post_url : String
  raw_data : String
  enriched_data : Option String
  timestamp : ℚ
deriving DecidableEq

/-- Row of the `ocr_results` table (`image_url` is the key). -/
structure OcrRow where
  extracted_text : String
  method : String
  timestamp : ℚ
deriving DecidableEq

/-- Row of the `link_content` table (`url` is the key). -/
structure LinkRow where
  title : String
  content : String
  source_domain : String
  timestamp : ℚ
deriving DecidableEq

/-- View returned by `get_link_cache`: title, content, source domain. -/
structure LinkView where
  title : String
  content : String
  source_domain : String
deriving DecidableEq

/-- Cache statistics: row counts by table. -/
structure CacheStats where
  posts : Nat
  comments : Nat
  ocr_results : Nat
  link_content : Nat
deriving DecidableEq

/-- Whole SQLite database: one association list per table, keyed by the
primary key of the table (at most one live row per key thanks to
`INSERT OR REPLACE`). -/
structure CacheDB where
  posts : List (String × PostRow)
  comments : List (String × CommentRow)
  ocr_results : List (String × OcrRow)
  link_content : List (String × LinkRow)

/-- Database with all four tables empty. -/
def emptyCacheDB : CacheDB :=
  { posts := [], comments := [], ocr_results := [], link_content := [] }

/-- Lookup of the row stored under a key (`SELECT ... WHERE key = ?`). -/
def lookupRow (table : List (String × β)) (key : String) : Option β :=
  (table.find? fun p => p.1 = key).map (·.2)

/-- Deletion of the row stored under a key (`DELETE ... WHERE key = ?`). -/
def eraseRow (table : List (String × β)) (key : String) : List (String × β) :=
  table.filter fun p => ¬ p.1 = key

/-- Upsert (`INSERT OR REPLACE`): the fresh row replaces any prior row for
the same key. -/
def upsertRow (table : List (String × β)) (key : String) (row : β) :
    List (String × β) :=
  (key, row) :: eraseRow table key

/-- Shallow embedding of `CacheManager._is_expired`: the stored timestamp
is strictly older than `now - expiry_hours`.  (The unparseable-timestamp
branch cannot arise here because timestamps are stored as numbers.) -/
def _is_expired (expiry_hours ts now : ℚ) : Bool :=
  decide (ts < now - expiry_hours)

/-- Shallow embedding of `CacheManager.cache_post`.  `err` injects a
storage-layer error (`sqlite3.Error`/`TypeError`), which the `except`
clause converts to `False` with the transaction rolled back. -/
def cache_post (err : Bool) (now : ℚ) (db : CacheDB) (post_url : String)
    (raw_data : String) (extracted_text : Option String)
    (enriched_data : Option String) : Bool × CacheDB :=
  if err then (false, db)
  else
    let row : PostRow :=
      { raw_data := raw_data
        extracted_text := extracted_text
        enriched_data := enriched_data
        timestamp := now }
    (true, { db with posts := upsertRow db.posts post_url row })

/-- Shallow embedding of `CacheManager.delete_post_cache`: removes the
post row and all comment rows whose `post_url` matches. -/
def delete_post_cache (err : Bool) (db : CacheDB) (post_url : String) :
    Bool × CacheDB :=
  if err then (false, db)
  else
    (true,
      { db with
          posts := eraseRow db.posts post_url
          comments := db.comments.filter fun p => ¬ p.2.post_url = post_url })

/-- Shallow embedding of `CacheManager.get_post_cache`: absent key or a
storage error reads as `none`; an expired row is deleted as a side effect
of the read and also reads as `none`. -/
def get_post_cache (err : Bool) (expiry_hours now : ℚ) (db : CacheDB)
    (post_url : String) : Option PostRow × CacheDB :=
  if err then (none, db)
  else
    match lookupRow db.posts post_url with
    | none => (none, db)
    | some row =>
      if _is_expired expiry_hours row.timestamp now then
        (none, (delete_post_cache false db post_url).2)
      else
        (some row, db)

/-- Shallow embedding of `CacheManager.cache_ocr`. -/
def cache_ocr (err : Bool) (now : ℚ) (db : CacheDB) (image_url : String)
    (extracted_text : String) (method : String) : Bool × CacheDB :=
  if err then (false, db)
  else
    let row : OcrRow :=
      { extracted_text := extracted_text, method := method, timestamp := now }
    (true, { db with ocr_results := upsertRow db.ocr_results image_url row })

/-- Shallow embedding of `CacheManager.delete_ocr_cache`. -/
def delete_ocr_cache (err : Bool) (db : CacheDB) (image_url : String) :
    Bool × CacheDB :=
  if err then (false, db)
  else (true, { db with ocr_results := eraseRow db.ocr_results image_url })

/-- Shallow embedding of `CacheManager.get_ocr_cache`. -/
def get_ocr_cache (err : Bool) (expiry_hours now : ℚ) (db : CacheDB)
    (image_url : String) : Option String × CacheDB :=
  if err then (none, db)
  else
    match lookupRow db.ocr_results image_url with
    | none => (none, db)
    | some row =>
      if _is_expired expiry_hours row.timestamp now then
        (none, (delete_ocr_cache false db image_url).2)
      else
        (some row.extracted_text, db)

/-- Shallow embedding of `CacheManager.cache_link`. -/
def cache_link (err : Bool) (now : ℚ) (db : CacheDB) (url : String)
    (title : String) (content : String) (source_domain : String) :
    Bool × CacheDB :=
  if err then (false, db)
  else
    let row : LinkRow :=
      { title := title, content := content,
        source_domain := source_domain, timestamp := now }
    (true, { db with link_content := upsertRow db.link_content url row })

/-- Shallow embedding of `CacheManager.delete_link_cache`. -/
def delete_link_cache (err : Bool) (db : CacheDB) (url : String) :
    Bool × CacheDB :=
  if err then (false, db)
  else (true, { db with link_content := eraseRow db.link_content url })

/-- Shallow embedding of `CacheManager.get_link_cache`. -/
def get_link_cache (err : Bool) (expiry_hours now : ℚ) (db : CacheDB)
    (url : String) : Option LinkView × CacheDB :=
  if err then (none, db)
  else
    match lookupRow db.link_content url with
    | none => (none, db)
    | some row =>
      if _is_expired expiry_hours row.timestamp now then
        (none, (delete_link_cache false db url).2)
      else
        (some { title := row.title, content := row.content,
                source_domain := row.source_domain }, db)

/-- Shallow embedding of `CacheManager.get_cache_stats`: row counts per
table; a storage error yields the empty dictionary, modelled as `none`. -/
def get_cache_stats (err : Bool) (db : CacheDB) : Option CacheStats :=
  if err then none
  else
    some
      { posts := db.posts.length
        comments := db.comments.length
        ocr_results := db.ocr_results.length
        link_content := db.link_content.length }

/-- Shallow embedding of `CacheManager.clear_all_cache`. -/
def clear_all_cache (err : Bool) (db : CacheDB) : Bool × CacheDB :=
  if err then (false, db) else (true, emptyCacheDB)

/-- Shallow embedding of `CacheManager.clear_expired_cache`: deletes every
row with `timestamp < now - expiry_hours` and reports the per-table
deletion counts; an error (modelled as occurring up front, before any
delete) returns the zero-initialised counts with the transaction rolled
back. -/
def clear_expired_cache (err : Bool) (expiry_hours now : ℚ) (db : CacheDB) :
    CacheStats × CacheDB :=
  if err then ({ posts := 0, comments := 0, ocr_results := 0, link_content := 0 }, db)
  else
    let keepP := db.posts.filter fun p => ¬ p.2.timestamp < now - expiry_hours
    let keepC := db.comments.filter fun p => ¬ p.2.timestamp < now - expiry_hours
    let keepO := db.ocr_results.filter fun p => ¬ p.2.timestamp < now - expiry_hours
    let keepL := db.link_content.filter fun p => ¬ p.2.timestamp < now - expiry_hours
    ({ posts := db.posts.length - keepP.length
       comments := db.comments.length - keepC.length
       ocr_results := db.ocr_results.length - keepO.length
       link_content := db.link_content.length - keepL.length },
     { posts := keepP, comments := keepC, ocr_results := keepO
       link_content := keepL })

/-- Opening brace character (written via its code point). -/
def lbraceC : Char := Char.ofNat 123

/-- Closing brace character (written via its code point). -/
def rbraceC : Char := Char.ofNat 125

/-- Single-quote character used by Python `repr` of strings. -/
def squoteC : Char := Char.ofNat 39

/-- Backtick character of markdown code fences. -/
def btickC : Char := Char.ofNat 96

/-- Python value as returned by `json.loads`: None, bool, int, float,
str, list or dict (dictionary keys of JSON objects are always strings). -/
inductive PyVal where
  | pynull
  | pybool (b : Bool)
  | pyint (n : Int)
  | pyfloat (q : ℚ)
  | pystr (s : String)
  | pylist (items : List PyVal)
  | pydict (entries : List (String × PyVal))

/-- Whitespace characters accepted between JSON tokens. -/
def isJsonWs (c : Char) : Bool :=
  c = ' ' || c = '\t' || c = '\n' || c = '\r'

/-- Drops JSON inter-token whitespace. -/
def skipWs (l : List Char) : List Char :=
  l.dropWhile isJsonWs

/-- Value of a hexadecimal digit, if the character is one. -/
def hexVal (c : Char) : Option Nat :=
  if c.isDigit then some (c.toNat - 48)
  else if 'a' ≤ c ∧ c ≤ 'f' then some (c.toNat - 87)
  else if 'A' ≤ c ∧ c ≤ 'F' then some (c.toNat - 55)
  else none

/-- Numeric value of a run of decimal digits. -/
def digitsToNat (l : List Char) : Nat :=
  l.foldl (fun acc c => acc * 10 + (c.toNat - 48)) 0

/-- Body of a JSON string after the opening quote: returns the decoded
content and the input remaining after the closing quote.  Handles the
JSON escapes (including 4-digit `u` escapes, without modelling surrogate
pairing) and rejects unescaped control characters, as the strict Python
decoder does. -/
def parseStringBody : List Char → Option (List Char × List Char)
  | [] => none
  | c :: rest =>
    if c = '"' then some ([], rest)
    else if c = '\\' then
      match rest with
      | [] => none
      | e :: rest2 =>
        if e = 'u' then
          match rest2 with
          | h1 :: h2 :: h3 :: h4 :: rest3 =>
            match hexVal h1, hexVal h2, hexVal h3, hexVal h4 with
            | some a, some b, some c4, some d =>
              (parseStringBody rest3).map fun p =>
                (Char.ofNat (((a * 16 + b) * 16 + c4) * 16 + d) :: p.1, p.2)
            | _, _, _, _ => none
          | _ => none
        else
          let esc : Option Char :=
            if e = '"' then some '"'
            else if e = '\\' then some '\\'
            else if e = '/' then some '/'
            else if e = 'b' then some '\x08'
            else if e = 'f' then some '\x0c'
            else if e = 'n' then some '\n'
            else if e = 'r' then some '\r'
            else if e = 't' then some '\t'
            else none
          match esc with
          | some c2 => (parseStringBody rest2).map fun p => (c2 :: p.1, p.2)
          | none => none
    else if c.toNat < 32 then none
    else (parseStringBody rest).map fun p => (c :: p.1, p.2)

/-- Number assembled from its parsed parts: a JSON number is a Python
int when it has neither fraction nor exponent, a float otherwise. -/
def mkNum (neg : Bool) (intVal : Int) (fracD : List Char)
    (expPart : Option Int) : PyVal :=
  match fracD, expPart with
  | [], none => .pyint (if neg then -intVal else intVal)
  | _, _ =>
    let base : ℚ := (intVal : ℚ) + (digitsToNat fracD : ℚ) / (10 : ℚ) ^ fracD.length
    .pyfloat ((if neg then -base else base) * (10 : ℚ) ^ (expPart.getD 0))

/-- Optional fraction and exponent following the integer part of a JSON
number. -/
def parseFracExp (neg : Bool) (intVal : Int) (s2 : List Char) :
    Option (PyVal × List Char) :=
  let fracStep : Option (List Char × List Char) :=
    match s2 with
    | d :: r =>
      if d = '.' then
        let fd := r.takeWhile Char.isDigit
        if fd.isEmpty then none else some (fd, r.dropWhile Char.isDigit)
      else some ([], s2)
    | [] => some ([], [])
  match fracStep with
  | none => none
  | some (fracD, s3) =>
    match s3 with
    | e :: r =>
      if e = 'e' ∨ e = 'E' then
        let signStep : Int × List Char :=
          match r with
          | c :: rr =>
            if c = '+' then (1, rr) else if c = '-' then (-1, rr) else (1, r)
          | [] => (1, [])
        let ed := signStep.2.takeWhile Char.isDigit
        if ed.isEmpty then none
        else
          some (mkNum neg intVal fracD (some (signStep.1 * (digitsToNat ed : Int))),
                signStep.2.dropWhile Char.isDigit)
      else some (mkNum neg intVal fracD none, s3)
    | [] => some (mkNum neg intVal fracD none, [])

/-- JSON number parser (sign, integer part with the leading-zero rule,
optional fraction and exponent). -/
def parseNumber (s : List Char) : Option (PyVal × List Char) :=
  let signStep : Bool × List Char :=
    match s with
    | c :: rest => if c = '-' then (true, rest) else (false, s)
    | [] => (false, [])
  match signStep.2 with
  | [] => none
  | c :: rest =>
    if ¬ c.isDigit then none
    else if c = '0' then parseFracExp signStep.1 0 rest
    else
      let ds := rest.takeWhile Char.isDigit
      parseFracExp signStep.1 (digitsToNat (c :: ds) : Int) (rest.dropWhile Char.isDigit)

/-- Insertion into the entry list of a Python dict under construction:
an existing key keeps its position and takes the new value (last write
wins), a new key is appended. -/
def putEntry : List (String × PyVal) → String → PyVal → List (String × PyVal)
  | [], k, v => [(k, v)]
  | (k0, v0) :: rest, k, v =>
    if k0 = k then (k0, v) :: rest else (k0, v0) :: putEntry rest k v

/-- Parser state: a value, the inside of an object just after its opening
brace, further object members, the inside of an array just after its
opening bracket, or further array items. -/
inductive JMode where
  | value
  | objFirst
  | objRest (acc : List (String × PyVal))
  | arrFirst
  | arrRest (acc : List PyVal)

/-- Recursive-descent JSON parser (`json.loads` grammar: the NaN/Infinity
extensions are not modelled).  Structural recursion on an explicit fuel;
the entry point supplies more fuel than any parse can consume, since
every second step consumes at least one character. -/
def parseJ : Nat → JMode → List Char → Option (PyVal × List Char)
  | 0, _, _ => none
  | f + 1, .value, s =>
    match s with
    | [] => none
    | c :: rest =>
      if c = lbraceC then parseJ f .objFirst (skipWs rest)
      else if c = '[' then parseJ f .arrFirst (skipWs rest)
      else if c = '"' then
        (parseStringBody rest).map fun p => (.pystr (String.mk p.1), p.2)
      else if s.take 4 = "true".data then some (.pybool true, s.drop 4)
      else if s.take 5 = "false".data then some (.pybool false, s.drop 5)
      else if s.take 4 = "null".data then some (.pynull, s.drop 4)
      else parseNumber s
  | f + 1, .objFirst, s =>
    match s with
    | [] => none
    | c :: rest =>
      if c = rbraceC then some (.pydict [], rest)
      else parseJ f (.objRest []) (c :: rest)
  | f + 1, .objRest acc, s =>
    match s with
    | [] => none
    | c :: rest =>
      if c = '"' then
        match parseStringBody rest with
        | none => none
        | some (key, rest2) =>
          match skipWs rest2 with
          | [] => none
          | d :: rest3 =>
            if d = ':' then
              match parseJ f .value (skipWs rest3) with
              | none => none
              | some (v, rest4) =>
                let acc2 := putEntry acc (String.mk key) v
                match skipWs rest4 with
                | [] => none
                | e :: rest5 =>
                  if e = ',' then parseJ f (.objRest acc2) (skipWs rest5)
                  else if e = rbraceC then some (.pydict acc2, rest5)
                  else none
            else none
      else none
  | f + 1, .arrFirst, s =>
    match s with
    | [] => none
    | c :: rest =>
      if c = ']' then some (.pylist [], rest)
      else parseJ f (.arrRest []) (c :: rest)
  | f + 1, .arrRest acc, s =>
    match parseJ f .value s with
    | none => none
    | some (v, rest) =>
      match skipWs rest with
      | [] => none
      | e :: rest2 =>
        if e = ',' then parseJ f (.arrRest (acc ++ [v])) (skipWs rest2)
        else if e = ']' then some (.pylist (acc ++ [v]), rest2)
        else none

/-- Strict `json.loads` on a character list: leading and trailing
whitespace allowed, the whole input must be consumed. -/
def jsonLoadsList (l : List Char) : Option PyVal :=
  match parseJ (2 * l.length + 8) .value (skipWs l) with
  | some (v, rest) => if skipWs rest = [] then some v else none
  | none => none

/-- Strict `json.loads` on a string. -/
def jsonLoads (s : String) : Option PyVal :=
  jsonLoadsList s.data

/-- Python float repr is the shortest round-tripping decimal; it is
approximated here by the printed form of the rational.  No theorem depends on
it (the serialized-length test is only ever applied to values without
floats in this development). -/
def pyFloatRepr (q : ℚ) : List Char :=
  (toString q).data

mutual

/-- Rendering of a parsed value as Python `str()` prints it: `None`,
`True`, `False`, decimal integers, strings in single quotes (the escaping
and quote-switching of `repr` are not modelled), bracketed lists and
braced dicts with `", "` separators and `": "` after keys. -/
def pyStrV : PyVal → List Char
  | .pynull => "None".data
  | .pybool true => "True".data
  | .pybool false => "False".data
  | .pyint n => (toString n).data
  | .pyfloat q => pyFloatRepr q
  | .pystr s => squoteC :: s.data ++ [squoteC]
  | .pylist items => '[' :: pyStrItems items ++ [']']
  | .pydict entries => lbraceC :: pyStrEntries entries ++ [rbraceC]

/-- Comma-separated rendering of list items. -/
def pyStrItems : List PyVal → List Char
  | [] => []
  | x :: xs =>
    pyStrV x ++ (if xs.isEmpty then [] else ',' :: ' ' :: pyStrItems xs)

/-- Comma-separated rendering of dict entries. -/
def pyStrEntries : List (String × PyVal) → List Char
  | [] => []
  | (k, v) :: rest =>
    squoteC :: k.data ++ [squoteC] ++ (':' :: ' ' :: pyStrV v) ++
      (if rest.isEmpty then [] else ',' :: ' ' :: pyStrEntries rest)

end

/-- Python `str()` of a parsed value (`len(str(parsed))` is the
"substantial" test of the brace-scan stage). -/
def pyStr (v : PyVal) : String :=
  String.mk (pyStrV v)

/-- Lazy search for the group-closing character: the group body `.*?`
grows one character at a time, and the first close character that is
followed by optional whitespace and a closing triple backtick ends the
match (this is exactly what the lazy quantifier with the trailing
`\s*`-backticks context resolves to, since a backtick is not whitespace).
The accumulator holds the body read so far, reversed. -/
def fenceClose (close : Char) : Nat → List Char → List Char →
    Option (List Char)
  | 0, _, _ => none
  | f + 1, acc, s =>
    match s with
    | [] => none
    | c :: rest =>
      if c = close ∧ (rest.dropWhile isPySpace).take 3 = [btickC, btickC, btickC]
      then some acc.reverse
      else fenceClose close f (c :: acc) rest

/-- Group of the fence pattern starting right after the opening backticks
(and the optional `json` tag): skip whitespace, require an opening brace
or bracket (the alternation tries the brace branch first, but the first
non-whitespace character decides anyway), then find the lazy close. -/
def fenceBody (t : List Char) : Option (List Char) :=
  let t1 := t.dropWhile isPySpace
  match t1 with
  | [] => none
  | c :: rest =>
    if c = lbraceC then
      (fenceClose rbraceC (rest.length + 1) [] rest).map fun body =>
        c :: body ++ [rbraceC]
    else if c = '[' then
      (fenceClose ']' (rest.length + 1) [] rest).map fun body =>
        c :: body ++ [']']
    else none

/-- Attempt of the fenced-block pattern at one start position: a triple
backtick, then the optional `json` tag (greedy, with backtracking to the
untagged branch if the tagged one fails), then the group. -/
def tryFenceAt (s : List Char) : Option (List Char) :=
  if s.take 3 = [btickC, btickC, btickC] then
    let s1 := s.drop 3
    if s1.take 4 = "json".data then
      match fenceBody (s1.drop 4) with
      | some g => some g
      | none => fenceBody s1
    else fenceBody s1
  else none

/-- Left-to-right scan for the first match of the fenced-block pattern. -/
def fenceFindFrom : Nat → List Char → Option (List Char)
  | 0, _ => none
  | f + 1, s =>
    match s with
    | [] => none
    | _ :: rest =>
      match tryFenceAt s with
      | some g => some g
      | none => fenceFindFrom f rest

/-- First group captured by
the re.findall call with the fenced-block pattern (triple backticks, an
optional json tag, whitespace, a lazy brace or bracket group, whitespace,
triple backticks) under DOTALL,
i.e. `matches[0]` of the markdown-fence extraction (only the first match
is ever used by the code). -/
def fenceFirstGroup (l : List Char) : Option (List Char) :=
  fenceFindFrom (l.length + 1) l

/-- Body scan of the depth-two group patterns
`\{(?:[^{}]|(?:\{[^{}]*\}))*\}` and `\[(?:[^\[\]]|(?:\[[^\[\]]*\]))*\]`:
after the opening character, the repetition consumes plain characters and
complete depth-one groups until the matching close; an opener whose inner
group is not closed before further nesting fails the whole attempt.  The
accumulator holds the consumed body, reversed; the result is the full
match (with its delimiters) and the rest of the input. -/
def groupScan (op cl : Char) : Nat → List Char → List Char →
    Option (List Char × List Char)
  | 0, _, _ => none
  | f + 1, acc, s =>
    match s with
    | [] => none
    | c :: rest =>
      if c = cl then some ((op :: acc.reverse) ++ [cl], rest)
      else if c = op then
        let inner := rest.takeWhile fun d => ¬ (d = op ∨ d = cl)
        match rest.drop inner.length with
        | d :: rest3 =>
          if d = cl then groupScan op cl f (d :: (inner.reverse ++ c :: acc)) rest3
          else none
        | [] => none
      else groupScan op cl f (c :: acc) rest

/-- Match attempt of a depth-two group pattern at one position. -/
def matchGroupAt (op cl : Char) (s : List Char) :
    Option (List Char × List Char) :=
  match s with
  | c :: rest => if c = op then groupScan op cl (rest.length + 1) [] rest else none
  | [] => none

/-- All non-overlapping, leftmost matches of a depth-two group pattern,
as `re.findall` produces them: scanning resumes after a match, or one
character further after a failed attempt. -/
def findAllGroups (op cl : Char) : Nat → List Char → List (List Char)
  | 0, _ => []
  | f + 1, s =>
    match s with
    | [] => []
    | _ :: rest =>
      match matchGroupAt op cl s with
      | some (m, after) => m :: findAllGroups op cl f after
      | none => findAllGroups op cl f rest

/-- Matches of the brace pattern `\{(?:[^{}]|(?:\{[^{}]*\}))*\}`. -/
def braceMatches (l : List Char) : List (List Char) :=
  findAllGroups lbraceC rbraceC (l.length + 1) l

/-- Matches of the bracket pattern `\[(?:[^\[\]]|(?:\[[^\[\]]*\]))*\]`. -/
def bracketMatches (l : List Char) : List (List Char) :=
  findAllGroups '[' ']' (l.length + 1) l

/-- Container test, `isinstance(parsed, (dict, list))`. -/
def isContainer : PyVal → Bool
  | .pydict _ => true
  | .pylist _ => true
  | _ => false

/-- Body of the scan-stage loop for one candidate substring: parse it,
keep it only when it is a container whose `str()` serialization is longer
than 50 characters; anything else falls through to the next candidate. -/
def scanCandidate (m : List Char) : Option PyVal :=
  match jsonLoadsList m with
  | some v => if isContainer v ∧ 50 < (pyStr v).length then some v else none
  | none => none

/-- Third extraction strategy: all brace-pattern matches, then all
bracket-pattern matches, first substantial parse wins. -/
def scanStage (l : List Char) : Option PyVal :=
  (braceMatches l ++ bracketMatches l).findSome? scanCandidate

/-- Shallow embedding of `GeminiAnalyzer._parse_json_response`.  The
return value is the Python object the function returns, with `.pynull`
standing for Python `None` — which is both the explicit failure result
and what a successful direct parse of JSON `null` returns (the two are
indistinguishable in Python).  Strategy order: direct `json.loads`;
first markdown-fenced group (only `matches[0]` is tried); brace/bracket
substring scan. -/
def _parse_json_response (response_text : String) : PyVal :=
  match jsonLoads response_text with
  | some v => v
  | none =>
    match fenceFirstGroup response_text.data with
    | some g =>
      match jsonLoadsList g with
      | some v => v
      | none =>
        match scanStage response_text.data with
        | some v => v
        | none => .pynull
    | none =>
      match scanStage response_text.data with
      | some v => v
      | none => .pynull

/-- Claim C6: for every total comment count C, the sampling-strategy
selector returns strategy "all" with no cap when C < 50, strategy
"top_plus_sampling" with cap 100 when 50 <= C < 500, and strategy
"top_clustering" with cap 200 when C >= 500 — the selector agrees with
the case split worded by the specification at every count. -/
theorem determine_sampling_strategy_spec :
    ∀ comment_count : Int,
      determine_sampling_strategy comment_count =
        specSamplingStrategy comment_count := by
  intro C
  unfold determine_sampling_strategy specSamplingStrategy
  rcases lt_or_le C 50 with h | h
  · simp [h]
  · rcases lt_or_le C 500 with h2 | h2
    · simp [not_lt.mpr h, h2, h]
    · have h50 : ¬ C < 50 := not_lt.mpr (le_trans (by norm_num) h2)
      simp [h50, not_lt.mpr h2]

/-- Claim C8: on a list of enriched comments that all carry a
quality_score, the quality filter returns exactly the subsequence of
comments with quality_score >= t, in input order, and filtering twice
with the same threshold equals filtering once. -/
theorem filter_quality_spec_idempotent
    (comments : List EnrichedComment) (t : ℚ)
    (hall : ∀ c ∈ comments, c.analysis.quality_score.isSome) :
    _filter_quality_comments comments t = specQualityFilter comments t ∧
    _filter_quality_comments (_filter_quality_comments comments t) t =
      _filter_quality_comments comments t := by
  constructor
  · unfold _filter_quality_comments specQualityFilter
    apply List.filter_congr
    intro c hc
    rcases Option.isSome_iff_exists.mp (hall c hc) with ⟨q, hq⟩
    simp [hq]
  · unfold _filter_quality_comments
    rw [List.filter_filter]
    apply List.filter_congr
    intro c hc
    simp

/-- Claim C10: an enriched comment that lacks the quality_score field is
treated as scoring 0 by the quality filter, so it is kept iff the
threshold is <= 0; under the default threshold 2.0 it is always
excluded. -/
theorem filter_quality_missing_score
    (comments : List EnrichedComment) (t : ℚ) (c : EnrichedComment)
    (hc : c ∈ comments) (hmiss : c.analysis.quality_score = none) :
    (c ∈ _filter_quality_comments comments t ↔ t ≤ 0) ∧
    c ∉ _filter_quality_comments comments 2 := by
  have key : ∀ t' : ℚ, c ∈ _filter_quality_comments comments t' ↔ t' ≤ 0 := by
    intro t'
    unfold _filter_quality_comments
    rw [List.mem_filter]
    simp [hmiss, hc]
  refine ⟨key t, fun h => ?_⟩
  have h2 := (key 2).mp h
  norm_num at h2

/-- Claim C9: with a storage-layer error injected, every public cache
operation (get/cache/delete for posts, OCR results and link content,
stats, clear-all and clear-expired) returns a miss (none), False, the
empty stats dictionary or zero counts instead of propagating, leaving
the database unchanged; an erroring read is observationally identical to
a miss on an empty cache. -/
theorem cache_storage_error_miss :
    ∀ (db : CacheDB) (expiry now : ℚ) (url iurl lurl : String)
      (raw : String) (ext enr : Option String) (text meth : String)
      (title content dom : String),
      get_post_cache true expiry now db url = (none, db) ∧
      cache_post true now db url raw ext enr = (false, db) ∧
      delete_post_cache true db url = (false, db) ∧
      get_ocr_cache true expiry now db iurl = (none, db) ∧
      cache_ocr true now db iurl text meth = (false, db) ∧
      delete_ocr_cache true db iurl = (false, db) ∧
      get_link_cache true expiry now db lurl = (none, db) ∧
      cache_link true now db lurl title content dom = (false, db) ∧
      delete_link_cache true db lurl = (false, db) ∧
      get_cache_stats true db = none ∧
      clear_all_cache true db = (false, db) ∧
      clear_expired_cache true expiry now db =
        ({ posts := 0, comments := 0, ocr_results := 0, link_content := 0 }, db) ∧
      (get_post_cache true expiry now db url).1 =
        (get_post_cache false expiry now emptyCacheDB url).1 := by
  intros
  exact ⟨rfl, rfl, rfl, rfl, rfl, rfl, rfl, rfl, rfl, rfl, rfl, rfl, rfl⟩

/-- Claim C3: for each cache kind (post, OCR, link), after a successful
put, a get of the same key performed while now - write_time <= expiry
returns the stored payload; once now - write_time > expiry the get
returns absent and deletes the stale row as a side effect; and after two
puts to the same key, only the later payload is retrievable. -/
theorem cache_round_trip
    (db : CacheDB) (url iurl lurl : String)
    (raw raw2 : String) (ext ext2 enr enr2 : Option String)
    (text text2 meth meth2 : String)
    (title title2 content content2 dom dom2 : String)
    (t_w t_in t_out expiry : ℚ)
    (h_in : t_in - t_w ≤ expiry) (h_out : expiry < t_out - t_w) :
    (get_post_cache false expiry t_in
        (cache_post false t_w db url raw ext enr).2 url).1 =
      some { raw_data := raw, extracted_text := ext, enriched_data := enr,
             timestamp := t_w } ∧
    get_post_cache false expiry t_out
        (cache_post false t_w db url raw ext enr).2 url =
      (none, (delete_post_cache false
        (cache_post false t_w db url raw ext enr).2 url).2) ∧
    (get_post_cache false expiry t_in
        (cache_post false t_w
          (cache_post false t_w db url raw2 ext2 enr2).2 url raw ext enr).2
        url).1 =
      some { raw_data := raw, extracted_text := ext, enriched_data := enr,
             timestamp := t_w } ∧
    (get_ocr_cache false expiry t_in
        (cache_ocr false t_w db iurl text meth).2 iurl).1 = some text ∧
    get_ocr_cache false expiry t_out
        (cache_ocr false t_w db iurl text meth).2 iurl =
      (none, (delete_ocr_cache false
        (cache_ocr false t_w db iurl text meth).2 iurl).2) ∧
    (get_ocr_cache false expiry t_in
        (cache_ocr false t_w
          (cache_ocr false t_w db iurl text2 meth2).2 iurl text meth).2
        iurl).1 = some text ∧
    (get_link_cache false expiry t_in
        (cache_link false t_w db lurl title content dom).2 lurl).1 =
      some { title := title, content := content, source_domain := dom } ∧
    get_link_cache false expiry t_out
        (cache_link false t_w db lurl title content dom).2 lurl =
      (none, (delete_link_cache false
        (cache_link false t_w db lurl title content dom).2 lurl).2) ∧
    (get_link_cache false expiry t_in
        (cache_link false t_w
          (cache_link false t_w db lurl title2 content2 dom2).2
          lurl title content dom).2 lurl).1 =
      some { title := title, content := content, source_domain := dom } := by
  have hfresh : _is_expired expiry t_w t_in = false := by
    simp only [_is_expired, decide_eq_false_iff_not, not_lt]
    linarith
  have hstale : _is_expired expiry t_w t_out = true := by
    simp only [_is_expired, decide_eq_true_eq]
    linarith
  refine ⟨?_, ?_, ?_, ?_, ?_, ?_, ?_, ?_, ?_⟩ <;>
    simp [cache_post, get_post_cache, cache_ocr, get_ocr_cache, cache_link,
      get_link_cache, lookupRow, upsertRow, eraseRow, hfresh, hstale,
      delete_post_cache, delete_ocr_cache, delete_link_cache, List.find?]

theorem hsGE_trans : ∀ a b c : PyComment,
    hsGE a b = true → hsGE b c = true → hsGE a c = true := by
  intro a b c hab hbc
  simp only [hsGE, decide_eq_true_eq] at *
  exact le_trans hbc hab

theorem hsGE_total : ∀ a b : PyComment, (hsGE a b || hsGE b a) = true := by
  intro a b
  simp only [hsGE, Bool.or_eq_true, decide_eq_true_eq]
  exact le_total (heuristic_score b) (heuristic_score a)

theorem rankedComments_perm (l : List PyComment) :
    (rankedComments l).Perm l :=
  List.mergeSort_perm l hsGE

theorem rankedComments_pairwise (l : List PyComment) :
    (rankedComments l).Pairwise
      (fun a b => heuristic_score b ≤ heuristic_score a) := by
  have h := List.sorted_mergeSort hsGE_trans hsGE_total l
  exact h.imp (by intro a b hab; simpa [hsGE] using hab)

theorem pre_filter_eq_take (l : List PyComment) (m : Nat) :
    _pre_filter_comments l m = (rankedComments l).take m := by
  cases l with
  | nil => simp [_pre_filter_comments, rankedComments]
  | cons x xs => simp [_pre_filter_comments]

theorem heuristic_eq_spec (c : PyComment) :
    heuristic_score c = specHeuristicScore c := by
  simp only [heuristic_score, specHeuristicScore]
  rcases le_or_lt (20 : ℚ) ((wordCount c.body : ℚ)) with h | h
  · have hmin : min ((wordCount c.body : ℚ) / 20) 1 = 1 := by
      apply min_eq_right
      rw [le_div_iff₀ (by norm_num : (0:ℚ) < 20)]
      linarith
    rw [if_pos h, hmin]
    ring
  · have hmin : min ((wordCount c.body : ℚ) / 20) 1 = (wordCount c.body : ℚ) / 20 := by
      apply min_eq_left
      rw [div_le_one (by norm_num : (0:ℚ) < 20)]
      linarith
    rw [if_neg (not_le.mpr h), hmin]
    ring

/-- Claim C4: the heuristic pre-filter assigns every comment the score
0.5 * length_bonus + 0.3 * depth_penalty + raw_score / 1000 with
length_bonus = min(word_count / 20, 1) and
depth_penalty = 1 - min(depth * 0.05, 0.5) (the code formula equals the
spec formula), orders its output non-increasingly by that score, returns
min(max_count, N) comments that dominate every dropped comment, and
returns the whole ranked list when N <= max_count.  The embedding is a
pure function: no external call occurs. -/
theorem pre_filter_top_ranked (comments : List PyComment) (m : Nat) :
    (∀ c, heuristic_score c = specHeuristicScore c) ∧
    (_pre_filter_comments comments m).Pairwise
      (fun a b => heuristic_score b ≤ heuristic_score a) ∧
    (_pre_filter_comments comments m).length = min m comments.length ∧
    (∃ dropped, (_pre_filter_comments comments m ++ dropped).Perm comments ∧
      ∀ x ∈ dropped, ∀ y ∈ _pre_filter_comments comments m,
        heuristic_score x ≤ heuristic_score y) ∧
    (comments.length ≤ m → _pre_filter_comments comments m = rankedComments comments) := by
  refine ⟨heuristic_eq_spec, ?_, ?_, ?_, ?_⟩
  · rw [pre_filter_eq_take]
    exact List.Pairwise.sublist (List.take_sublist m _) (rankedComments_pairwise comments)
  · rw [pre_filter_eq_take, List.length_take, rankedComments,
      List.length_mergeSort]
  · refine ⟨(rankedComments comments).drop m, ?_, ?_⟩
    · rw [pre_filter_eq_take, List.take_append_drop]
      exact rankedComments_perm comments
    · intro x hx y hy
      rw [pre_filter_eq_take] at hy
      have hp : ((rankedComments comments).take m ++
          (rankedComments comments).drop m).Pairwise
          (fun a b => heuristic_score b ≤ heuristic_score a) := by
        rw [List.take_append_drop]; exact rankedComments_pairwise comments
      exact (List.pairwise_append.mp hp).2.2 y hy x hx
  · intro h
    rw [pre_filter_eq_take]
    apply List.take_of_length_le
    rw [rankedComments, List.length_mergeSort]
    exact h

theorem indexOf_lt_of_score_gt {out : List PyComment} {a b : PyComment}
    (hp : out.Pairwise (fun x y => heuristic_score y ≤ heuristic_score x))
    (ha : a ∈ out) (hb : b ∈ out)
    (hgt : heuristic_score b < heuristic_score a) :
    out.indexOf a < out.indexOf b := by
  have hne : a ≠ b := by
    intro h; rw [h] at hgt; exact lt_irrefl _ hgt
  have hia : out.indexOf a < out.length := List.indexOf_lt_length.mpr ha
  have hib : out.indexOf b < out.length := List.indexOf_lt_length.mpr hb
  rcases lt_trichotomy (out.indexOf a) (out.indexOf b) with h | h | h
  · exact h
  · exact absurd ((List.indexOf_inj ha hb).mp h) hne
  · exfalso
    have := List.pairwise_iff_getElem.mp hp _ _ hib hia h
    rw [List.getElem_indexOf hia, List.getElem_indexOf hib] at this
    exact absurd hgt (not_lt.mpr this)

theorem score_gt_of_words {a b : PyComment}
    (hs : a.score = b.score) (hd : a.depth = b.depth)
    (hwa : 20 ≤ wordCount a.body) (hwb : wordCount b.body < 20) :
    heuristic_score b < heuristic_score a := by
  have hwa' : (20 : ℚ) ≤ (wordCount a.body : ℚ) := by exact_mod_cast hwa
  have hwb' : ((wordCount b.body : ℚ)) < 20 := by exact_mod_cast hwb
  have hwb0 : (0 : ℚ) ≤ (wordCount b.body : ℚ) := Nat.cast_nonneg _
  simp only [heuristic_score, hs, hd]
  rw [if_pos hwa', if_neg (not_le.mpr hwb')]
  have : (wordCount b.body : ℚ) / 20 < 1 := by
    rw [div_lt_one (by norm_num : (0:ℚ) < 20)]; exact hwb'
  nlinarith [this]

/-- Claim C5: the pre-filter output is the max_count-prefix of the stable
descending ranking, hence ordered non-increasingly by the heuristic
score; the stable sort keeps any input pair in order whenever the
earlier comment scores at least the later one (so ties keep input
order); and for two comments with identical raw score and depth where A
has at least 20 words and B fewer than 20, whenever B appears in the
output A does too, strictly earlier. -/
theorem pre_filter_tie_order (l : List PyComment) (m : Nat) :
    _pre_filter_comments l m = (rankedComments l).take m ∧
    (_pre_filter_comments l m).Pairwise
      (fun a b => heuristic_score b ≤ heuristic_score a) ∧
    (∀ a b : PyComment, heuristic_score b ≤ heuristic_score a →
      [a, b].Sublist l → [a, b].Sublist (rankedComments l)) ∧
    (∀ a b : PyComment, a.score = b.score → a.depth = b.depth →
      20 ≤ wordCount a.body → wordCount b.body < 20 →
      a ∈ l → b ∈ _pre_filter_comments l m →
      a ∈ _pre_filter_comments l m ∧
      (_pre_filter_comments l m).indexOf a < (_pre_filter_comments l m).indexOf b) := by
  refine ⟨pre_filter_eq_take l m, ?_, ?_, ?_⟩
  · exact List.Pairwise.sublist
      (pre_filter_eq_take l m ▸ List.take_sublist m _)
      (rankedComments_pairwise l)
  · intro a b hab hsub
    apply List.sublist_mergeSort hsGE_trans hsGE_total
    · have : hsGE a b = true := by
        simp only [hsGE, decide_eq_true_eq]
        exact hab
      simp [List.pairwise_cons, this]
    · exact hsub
  · intro a b hs hd hwa hwb hal hbout
    have hgt := score_gt_of_words hs hd hwa hwb
    have hpout : (_pre_filter_comments l m).Pairwise
        (fun x y => heuristic_score y ≤ heuristic_score x) :=
      List.Pairwise.sublist
        (pre_filter_eq_take l m ▸ List.take_sublist m _)
        (rankedComments_pairwise l)
    have haout : a ∈ _pre_filter_comments l m := by
      by_contra hnot
      have haranked : a ∈ rankedComments l :=
        ((rankedComments_perm l).mem_iff).mpr hal
      have hsplit : a ∈ (rankedComments l).take m ++ (rankedComments l).drop m := by
        rw [List.take_append_drop]; exact haranked
      have hadrop : a ∈ (rankedComments l).drop m := by
        rcases List.mem_append.mp hsplit with h | h
        · exact absurd (by rw [pre_filter_eq_take]; exact h) hnot
        · exact h
      have hp : ((rankedComments l).take m ++
          (rankedComments l).drop m).Pairwise
          (fun x y => heuristic_score y ≤ heuristic_score x) := by
        rw [List.take_append_drop]; exact rankedComments_pairwise l
      have hbtake : b ∈ (rankedComments l).take m := by
        rw [← pre_filter_eq_take]; exact hbout
      have := (List.pairwise_append.mp hp).2.2 b hbtake a hadrop
      exact absurd hgt (not_lt.mpr this)
    exact ⟨haout, indexOf_lt_of_score_gt hpout haout hbout hgt⟩

theorem chunkGo_nil (bs n : Nat) : chunkGo bs n ([] : List α) = [] := by
  cases n <;> rfl

theorem chunkGo_flatten (bs : Nat) :
    ∀ (n : Nat) (l : List α), l.length ≤ n → (chunkGo bs n l).flatten = l := by
  intro n
  induction n with
  | zero =>
    intro l h
    rw [Nat.le_zero, List.length_eq_zero] at h
    subst h
    simp [chunkGo_nil]
  | succ n ih =>
    intro l h
    cases l with
    | nil => simp [chunkGo_nil]
    | cons x xs =>
      simp only [chunkGo, List.flatten_cons]
      rw [ih]
      · rw [List.cons_append, List.take_append_drop]
      · have hd : (xs.drop (bs - 1)).length ≤ xs.length := by
          rw [List.length_drop]; omega
        have hx : xs.length ≤ n := by
          simp only [List.length_cons] at h; omega
        omega

theorem chunkGo_length (bs : Nat) (hbs : 1 ≤ bs) :
    ∀ (n : Nat) (l : List α), l.length ≤ n →
      (chunkGo bs n l).length = (l.length + bs - 1) / bs := by
  intro n
  induction n with
  | zero =>
    intro l h
    rw [Nat.le_zero, List.length_eq_zero] at h
    subst h
    rw [chunkGo_nil]
    simp [Nat.div_eq_of_lt (by omega : bs - 1 < bs)]
  | succ n ih =>
    intro l h
    cases l with
    | nil =>
      rw [chunkGo_nil]
      simp [Nat.div_eq_of_lt (by omega : bs - 1 < bs)]
    | cons x xs =>
      simp only [chunkGo, List.length_cons]
      have hx : xs.length ≤ n := by
        simp only [List.length_cons] at h; omega
      rw [ih (xs.drop (bs - 1)) (by rw [List.length_drop]; omega)]
      rw [List.length_drop]
      have hrhs : (xs.length + 1 + bs - 1) / bs = xs.length / bs + 1 := by
        have : xs.length + 1 + bs - 1 = xs.length + bs := by omega
        rw [this, Nat.add_div_right _ (by omega : 0 < bs)]
      rw [hrhs]
      rcases le_or_lt (bs - 1) xs.length with h1 | h1
      · have : xs.length - (bs - 1) + bs - 1 = xs.length := by omega
        rw [this]
      · have hz1 : xs.length - (bs - 1) + bs - 1 = bs - 1 := by omega
        rw [hz1, Nat.div_eq_of_lt (by omega : bs - 1 < bs),
          Nat.div_eq_of_lt (by omega : xs.length < bs)]

theorem chunkGo_sizes (bs : Nat) (hbs : 1 ≤ bs) :
    ∀ (n : Nat) (l : List α), l.length ≤ n →
      ∀ ch ∈ chunkGo bs n l, ch.length ≤ bs ∧ ch ≠ [] := by
  intro n
  induction n with
  | zero =>
    intro l h
    rw [Nat.le_zero, List.length_eq_zero] at h
    subst h
    simp [chunkGo_nil]
  | succ n ih =>
    intro l h ch hch
    cases l with
    | nil => rw [chunkGo_nil] at hch; exact absurd hch (List.not_mem_nil ch)
    | cons x xs =>
      simp only [chunkGo, List.mem_cons] at hch
      have hx : xs.length ≤ n := by
        simp only [List.length_cons] at h; omega
      rcases hch with rfl | hch
      · constructor
        · simp only [List.length_cons, List.length_take]
          omega
        · simp
      · exact ih (xs.drop (bs - 1)) (by rw [List.length_drop]; omega) ch hch

theorem chunkList_flatten (bs : Nat) (l : List α) :
    (chunkList bs l).flatten = l :=
  chunkGo_flatten bs l.length l le_rfl

theorem chunkList_length (bs : Nat) (hbs : 1 ≤ bs) (l : List α) :
    (chunkList bs l).length = (l.length + bs - 1) / bs :=
  chunkGo_length bs hbs l.length l le_rfl

theorem chunkList_sizes (bs : Nat) (hbs : 1 ≤ bs) (l : List α) :
    ∀ ch ∈ chunkList bs l, ch.length ≤ bs ∧ ch ≠ [] :=
  chunkGo_sizes bs hbs l.length l le_rfl

theorem processBatch_default (respond : BatchOracle) (batch : List PyComment)
    (h : respond batch = none) :
    processBatch respond batch =
      batch.map fun c => mergeAnalysis c (_get_default_comment_analysis c.id) := by
  unfold processBatch
  rw [h]

theorem processBatch_base_cover (respond : BatchOracle) (batch : List PyComment)
    (h : ∀ res, respond batch = some res → res = [] ∨ batch.length ≤ res.length) :
    (processBatch respond batch).map EnrichedComment.base = batch := by
  unfold processBatch
  cases hr : respond batch with
  | none => simp [mergeAnalysis, Function.comp_def]
  | some res =>
    cases res with
    | nil => simp [mergeAnalysis, Function.comp_def]
    | cons a rest =>
      rcases h _ hr with h0 | hlen
      · exact absurd h0 (by simp)
      · have : (fun e => EnrichedComment.base e) ∘
            (fun p : PyComment × CommentAnalysis => mergeAnalysis p.1 p.2) =
            Prod.fst := by
          funext p; rfl
        rw [List.map_map, this]
        exact List.map_fst_zip _ _ hlen

theorem analyze_single_batch (respond : BatchOracle) (ch : List PyComment)
    (bs : Nat) (h1 : ch.length ≤ bs) (h2 : ch ≠ []) :
    analyze_comments_batch respond ch bs = processBatch respond ch := by
  unfold analyze_comments_batch chunkList
  cases ch with
  | nil => exact absurd rfl h2
  | cons x xs =>
    simp only [List.length_cons, chunkGo]
    have hlen : xs.length ≤ bs - 1 := by
      simp only [List.length_cons] at h1; omega
    rw [List.take_of_length_le hlen, List.drop_eq_nil_of_le hlen, chunkGo_nil]
    simp [List.flatMap]

/-- Claim C1 (amended): when a batch response is absent, unparseable, a
non-list, or an empty list, every comment of the batch appears in the
returned list merged with the default neutral analysis — same
identifier, quality_score 5.0, intent_primary UNKNOWN — and no comment
is dropped; but when the response parses to a valid non-empty array
shorter than the batch, the batch contributes exactly the comments
paired positionally with an array element, so the unpaired tail of the
batch is dropped from the output. -/
theorem analyze_comments_batch_failure_defaults
    (respond : BatchOracle) (comments : List PyComment) (bs : Nat)
    (hbs : 1 ≤ bs) :
    ((∀ b, respond b = none) →
      analyze_comments_batch respond comments bs =
        comments.map fun c => mergeAnalysis c (_get_default_comment_analysis c.id)) ∧
    (∀ cid, (_get_default_comment_analysis cid).comment_id = some cid ∧
      (_get_default_comment_analysis cid).quality_score = some 5 ∧
      (_get_default_comment_analysis cid).intent_primary = some ("UNKNOWN")) ∧
    (∀ batch, respond batch = none →
      processBatch respond batch =
        batch.map fun c => mergeAnalysis c (_get_default_comment_analysis c.id)) ∧
    (∀ batch a rest, respond batch = some (a :: rest) →
      processBatch respond batch =
        (batch.zip (a :: rest)).map fun p => mergeAnalysis p.1 p.2) := by
  refine ⟨?_, fun cid => ⟨rfl, rfl, rfl⟩, processBatch_default respond, ?_⟩
  · intro hfail
    unfold analyze_comments_batch
    rw [List.flatMap_def,
      List.map_congr_left
        (fun ch _ => processBatch_default respond ch (hfail ch)),
      ← List.map_flatten, chunkList_flatten]
  · intro batch a rest hr
    unfold processBatch
    rw [hr]

/-- Claim C1 counterexample: a two-comment input answered with a valid
one-element JSON array loses its second comment — no record of the
returned list carries identifier "c2" — refuting the claim that a
response array shorter than the batch never drops a comment. -/
theorem analyze_comments_batch_short_array_drops :
    ¬ (∀ c ∈ ([⟨"c1", "", 0, 0⟩, ⟨"c2", "", 0, 0⟩] : List PyComment),
        ∃ e ∈ analyze_comments_batch
            (fun _ => some [_get_default_comment_analysis ("x")])
            [⟨"c1", "", 0, 0⟩, ⟨"c2", "", 0, 0⟩] 20,
          e.base.id = c.id) := by
  intro hall
  rcases hall ⟨"c2", "", 0, 0⟩ (by simp) with ⟨e, he, hid⟩
  have : e.base.id = "c1" := by
    have : analyze_comments_batch
        (fun _ => some [_get_default_comment_analysis ("x")])
        [⟨"c1", "", 0, 0⟩, ⟨"c2", "", 0, 0⟩] 20 =
        [mergeAnalysis ⟨"c1", "", 0, 0⟩ (_get_default_comment_analysis ("x"))] := rfl
    rw [this] at he
    simp at he
    rw [he]
    rfl
  rw [hid] at this
  simp at this

/-- Claim C1 witness: the amended theorem applied to a concrete
one-comment list with an always-failing oracle. -/
theorem analyze_comments_batch_failure_defaults_witness :
    analyze_comments_batch (fun _ => none)
        [(⟨"w1", "", 0, 0⟩ : PyComment)] 20 =
      [mergeAnalysis ⟨"w1", "", 0, 0⟩ (_get_default_comment_analysis ("w1"))] := by
  have h := (analyze_comments_batch_failure_defaults (fun _ => none)
    [(⟨"w1", "", 0, 0⟩ : PyComment)] 20 (by norm_num)).1 (fun _ => rfl)
  simpa using h

/-- Claim C2 (amended): for N comments and batch_size B >= 1, the
pipeline partitions the input into exactly ceil(N/B) contiguous nonempty
chunks of size at most B whose concatenation is the input (one
enrichment call per chunk); and provided no successfully parsed response
array is shorter than its batch (in particular when every batch call
fails), the merged output of the parallel dispatch, in every completion
order, contains every input comment exactly once. -/
theorem batch_partition_exact (comments : List PyComment) (bs : Nat)
    (hbs : 1 ≤ bs) :
    (chunkList bs comments).length = (comments.length + bs - 1) / bs ∧
    (∀ ch ∈ chunkList bs comments, ch.length ≤ bs ∧ ch ≠ []) ∧
    (chunkList bs comments).flatten = comments ∧
    (∀ (respond : BatchOracle) (completed : List (List PyComment)),
      completed.Perm (chunkList bs comments) →
      (∀ ch ∈ chunkList bs comments, ∀ res, respond ch = some res →
        res = [] ∨ ch.length ≤ res.length) →
      ((_analyze_comments_parallel respond bs completed).map
          EnrichedComment.base).Perm comments) := by
  refine ⟨chunkList_length bs hbs comments, chunkList_sizes bs hbs comments,
    chunkList_flatten bs comments, ?_⟩
  intro respond completed hperm hcov
  unfold _analyze_comments_parallel
  have hone : ∀ ch ∈ completed,
      analyze_comments_batch respond ch bs = processBatch respond ch := by
    intro ch hch
    have hsz := chunkList_sizes bs hbs comments ch (hperm.subset hch)
    exact analyze_single_batch respond ch bs hsz.1 hsz.2
  have hbase : ∀ ch ∈ completed,
      (analyze_comments_batch respond ch bs).map EnrichedComment.base = ch := by
    intro ch hch
    rw [hone ch hch]
    exact processBatch_base_cover respond ch (hcov ch (hperm.subset hch))
  rw [List.map_flatMap]
  have : completed.flatMap
      (fun ch => (analyze_comments_batch respond ch bs).map EnrichedComment.base) =
      completed.flatten := by
    rw [List.flatMap_def, List.map_congr_left hbase]
    simp
  rw [this]
  have := hperm.flatten
  rw [chunkList_flatten bs comments] at this
  exact this

/-- Claim C2 counterexample: with a valid one-element array response for
a two-comment chunk, the merged parallel output is [d1] and is not a
permutation of the input [d1, d2] — a comment is lost, refuting the
unconditional exactly-once coverage of the merged output. -/
theorem batch_pipeline_merged_loss :
    ¬ (((_analyze_comments_parallel
          (fun _ => some [_get_default_comment_analysis ("z")]) 2
          (chunkList 2 [⟨"d1", "", 0, 0⟩, ⟨"d2", "", 0, 0⟩])).map
        EnrichedComment.base).Perm
        ([⟨"d1", "", 0, 0⟩, ⟨"d2", "", 0, 0⟩] : List PyComment)) := by
  intro hperm
  have hlen := hperm.length_eq
  have : (_analyze_comments_parallel
      (fun _ => some [_get_default_comment_analysis ("z")]) 2
      (chunkList 2 [⟨"d1", "", 0, 0⟩, ⟨"d2", "", 0, 0⟩])).map
      EnrichedComment.base =
      [⟨"d1", "", 0, 0⟩] := rfl
  rw [this] at hlen
  simp at hlen

/-- Claim C2 witness: the amended theorem applied to three concrete
comments with batch size 2 and an always-failing oracle. -/
theorem batch_partition_exact_witness :
    (chunkList 2 [(⟨"w2", "", 0, 0⟩ : PyComment), ⟨"w3", "", 0, 0⟩,
        ⟨"w4", "", 0, 0⟩]).length = 2 ∧
    ((_analyze_comments_parallel (fun _ => none) 2
        (chunkList 2 [(⟨"w2", "", 0, 0⟩ : PyComment), ⟨"w3", "", 0, 0⟩,
          ⟨"w4", "", 0, 0⟩])).map EnrichedComment.base).Perm
      [(⟨"w2", "", 0, 0⟩ : PyComment), ⟨"w3", "", 0, 0⟩, ⟨"w4", "", 0, 0⟩] := by
  have h := batch_partition_exact
    [(⟨"w2", "", 0, 0⟩ : PyComment), ⟨"w3", "", 0, 0⟩, ⟨"w4", "", 0, 0⟩] 2
    (by norm_num)
  refine ⟨by rw [h.1]; rfl, ?_⟩
  exact h.2.2.2 (fun _ => none) _ (List.Perm.refl _) (by intro ch hch res hres; simp at hres)

theorem scanStage_substantial {l : List Char} {v : PyVal}
    (h : scanStage l = some v) :
    isContainer v = true ∧ 50 < (pyStr v).length := by
  unfold scanStage at h
  rcases List.exists_of_findSome?_eq_some h with ⟨m, _, hm⟩
  unfold scanCandidate at hm
  cases hj : jsonLoadsList m with
  | none =>
    simp only [hj] at hm
    exact absurd hm (by simp)
  | some w =>
    simp only [hj] at hm
    by_cases hc : isContainer w = true ∧ 50 < (pyStr w).length
    · rw [if_pos hc] at hm
      cases hm
      exact ⟨hc.1, hc.2⟩
    · rw [if_neg hc] at hm
      exact absurd hm (by simp)

/-- Claim C7 (amended): the JSON-response parser is total (it returns a
parsed structure, with pynull standing for the Python None result) and
attempts, in order, direct parse, markdown-fenced-block parse, then the
brace/bracket substring scan; a successful direct parse wins regardless
of serialized length, a successful parse of the first fenced group wins
regardless of serialized length, and the substantial condition
(serialized length > 50) governs only the substring-scan stage, whose
every result satisfies it. -/
theorem parse_json_strategy_order :
    (∀ (s : String) (v : PyVal), jsonLoads s = some v →
      _parse_json_response s = v) ∧
    (∀ (s : String) (g : List Char) (v : PyVal), jsonLoads s = none →
      fenceFirstGroup s.data = some g → jsonLoadsList g = some v →
      _parse_json_response s = v) ∧
    (∀ s : String, jsonLoads s = none → fenceFirstGroup s.data = none →
      _parse_json_response s ≠ PyVal.pynull →
      50 < (pyStr (_parse_json_response s)).length) := by
  refine ⟨?_, ?_, ?_⟩
  · intro s v h
    unfold _parse_json_response
    rw [h]
  · intro s g v h1 h2 h3
    unfold _parse_json_response
    simp only [h1, h2, h3]
  · intro s h1 h2 hne
    unfold _parse_json_response at hne ⊢
    cases hs : scanStage s.data with
    | none => simp only [h1, h2, hs] at hne; exact absurd rfl hne
    | some v =>
      simp only [h1, h2, hs]
      exact (scanStage_substantial hs).2

/-- Claim C7 counterexample: the response "{}" is directly parsed and
returned even though its serialization has length 2, refuting the claim
that only a structurally valid AND substantial (serialized length > 50)
result wins. -/
theorem parse_json_small_direct_wins :
    _parse_json_response ("\x7b\x7d") = PyVal.pydict [] ∧
    ¬ 50 < (pyStr (PyVal.pydict [])).length :=
  ⟨rfl, by decide⟩

/-- Claim C7 witness: the three conjuncts of the amended theorem applied
to concrete response strings exercising each strategy. -/
theorem parse_json_strategy_order_witness :
    _parse_json_response ("[null, true]") = PyVal.pylist [.pynull, .pybool true] ∧
    _parse_json_response ("xx ```json \x7b\"a\": null\x7d ``` yy") =
      PyVal.pydict [("a", .pynull)] ∧
    50 < (pyStr (_parse_json_response
      "see \x7b\"key\": \"aaaaaaaaaaaaaaaaaaaaaaaaaaaaaaaaaaaaaaaaaaaaaaaaaa\"\x7d end")).length := by
  refine ⟨parse_json_strategy_order.1 _ _ rfl,
    parse_json_strategy_order.2.1 _ _ _ rfl rfl rfl,
    parse_json_strategy_order.2.2 _ rfl rfl ?_⟩
  rw [show _parse_json_response
      "see \x7b\"key\": \"aaaaaaaaaaaaaaaaaaaaaaaaaaaaaaaaaaaaaaaaaaaaaaaaaa\"\x7d end" =
      PyVal.pydict [("key",
        .pystr ("aaaaaaaaaaaaaaaaaaaaaaaaaaaaaaaaaaaaaaaaaaaaaaaaaa"))] from rfl]
  simp

/-- Claim C3 witness: the round-trip theorem applied to the empty cache
with write time 0, fresh read at time 1, stale read at time 25 and a
24-hour expiry. -/
theorem cache_round_trip_witness :
    (get_post_cache false 24 1
        (cache_post false 0 emptyCacheDB ("u") "raw" none none).2 ("u")).1 =
      some { raw_data := "raw", extracted_text := none, enriched_data := none,
             timestamp := 0 } ∧
    get_post_cache false 24 25
        (cache_post false 0 emptyCacheDB ("u") "raw" none none).2 ("u") =
      (none, (delete_post_cache false
        (cache_post false 0 emptyCacheDB ("u") "raw" none none).2 ("u")).2) := by
  have h := cache_round_trip emptyCacheDB ("u") "i" "l" "raw" "r2" none none none
    none ("t") "t2" "m" "m2" "ti" "ti2" "co" "co2" "do" "do2" 0 1 25 24
    (by norm_num) (by norm_num)
  exact ⟨h.1, h.2.1⟩

/-- Claim C4 witness: the pre-filter applied to two concrete comments
with max_count 5 returns the whole ranked list. -/
theorem pre_filter_top_ranked_witness :
    _pre_filter_comments [(⟨"w5", "", 0, 0⟩ : PyComment), ⟨"w6", "", 1, 0⟩] 5 =
      rankedComments [(⟨"w5", "", 0, 0⟩ : PyComment), ⟨"w6", "", 1, 0⟩] :=
  (pre_filter_top_ranked [⟨"w5", "", 0, 0⟩, ⟨"w6", "", 1, 0⟩] 5).2.2.2.2
    (by simp)

/-- Claim C5 witness: with equal score and depth, a 20-word comment is
ranked strictly before a 2-word comment even though it came later in the
input. -/
theorem pre_filter_tie_order_witness :
    (⟨"wA", "a a a a a a a a a a a a a a a a a a a a", 7, 3⟩ : PyComment) ∈
      _pre_filter_comments
        [(⟨"wB", "short words", 7, 3⟩ : PyComment),
          ⟨"wA", "a a a a a a a a a a a a a a a a a a a a", 7, 3⟩] 2 ∧
    (_pre_filter_comments
        [(⟨"wB", "short words", 7, 3⟩ : PyComment),
          ⟨"wA", "a a a a a a a a a a a a a a a a a a a a", 7, 3⟩] 2).indexOf
        ⟨"wA", "a a a a a a a a a a a a a a a a a a a a", 7, 3⟩ <
      (_pre_filter_comments
        [(⟨"wB", "short words", 7, 3⟩ : PyComment),
          ⟨"wA", "a a a a a a a a a a a a a a a a a a a a", 7, 3⟩] 2).indexOf
        ⟨"wB", "short words", 7, 3⟩ := by
  have hfull : _pre_filter_comments
      [(⟨"wB", "short words", 7, 3⟩ : PyComment),
        ⟨"wA", "a a a a a a a a a a a a a a a a a a a a", 7, 3⟩] 2 =
      rankedComments
        [(⟨"wB", "short words", 7, 3⟩ : PyComment),
          ⟨"wA", "a a a a a a a a a a a a a a a a a a a a", 7, 3⟩] := by
    rw [pre_filter_eq_take]
    apply List.take_of_length_le
    rw [rankedComments, List.length_mergeSort]
    simp
  exact (pre_filter_tie_order
      [(⟨"wB", "short words", 7, 3⟩ : PyComment),
        ⟨"wA", "a a a a a a a a a a a a a a a a a a a a", 7, 3⟩] 2).2.2.2
    ⟨"wA", "a a a a a a a a a a a a a a a a a a a a", 7, 3⟩
    ⟨"wB", "short words", 7, 3⟩ rfl rfl (by decide) (by decide) (by simp)
    (by rw [hfull]
        exact (rankedComments_perm _).mem_iff.mpr (by simp))

/-- Claim C8 witness: the filter theorem applied to a concrete singleton
list carrying quality_score 3 at threshold 2. -/
theorem filter_quality_spec_idempotent_witness :
    _filter_quality_comments
        [⟨⟨"w8", "", 0, 0⟩,
          ⟨some ("w8"), some 3, some ("SOLUTION"), none, none, none, none,
            none, none, none, some 4⟩⟩] 2 =
      specQualityFilter
        [⟨⟨"w8", "", 0, 0⟩,
          ⟨some ("w8"), some 3, some ("SOLUTION"), none, none, none, none,
            none, none, none, some 4⟩⟩] 2 ∧
    _filter_quality_comments
        (_filter_quality_comments
          [⟨⟨"w8", "", 0, 0⟩,
            ⟨some ("w8"), some 3, some ("SOLUTION"), none, none, none, none,
              none, none, none, some 4⟩⟩] 2) 2 =
      _filter_quality_comments
        [⟨⟨"w8", "", 0, 0⟩,
          ⟨some ("w8"), some 3, some ("SOLUTION"), none, none, none, none,
            none, none, none, some 4⟩⟩] 2 :=
  filter_quality_spec_idempotent _ 2
    (by intro c hc
        rw [List.mem_singleton] at hc
        subst hc
        rfl)

/-- Claim C10 witness: a concrete enriched comment with no quality_score
is kept at threshold 0 and excluded at the default threshold 2. -/
theorem filter_quality_missing_score_witness :
    ((⟨⟨"w10", "", 0, 0⟩,
        ⟨none, none, none, none, none, none, none, none, none, none,
          none⟩⟩ : EnrichedComment) ∈
      _filter_quality_comments
        [⟨⟨"w10", "", 0, 0⟩,
          ⟨none, none, none, none, none, none, none, none, none, none,
            none⟩⟩] 0 ↔ (0 : ℚ) ≤ 0) ∧
    (⟨⟨"w10", "", 0, 0⟩,
        ⟨none, none, none, none, none, none, none, none, none, none,
          none⟩⟩ : EnrichedComment) ∉
      _filter_quality_comments
        [⟨⟨"w10", "", 0, 0⟩,
          ⟨none, none, none, none, none, none, none, none, none, none,
            none⟩⟩] 2 :=
  filter_quality_missing_score _ 0 _ (List.mem_singleton.mpr rfl) rfl
